import Mathlib

/-!
# Shallow embedding of `xls/common/strong_int.h`

`StrongInt<TagType, NativeType, ValidatorType>` wraps one native integer
value.  We model the native type as a `w`-bit machine integer: a `Nat`
together with the width `w`, every native operation reducing modulo `2 ^ w`
(native fixed-width wraparound semantics).  The `TagType` is a phantom
compile-time marker and the default `NullStrongIntValidator`'s hooks are
no-ops whose return value the wrapper ignores; what is observable about a
hook is only *that* it was invoked and with which arguments, so every
embedded operation returns, next to its value, the list of validator hook
invocations it performs, in order.
-/

namespace StrongIntSpec

/-- One validator-hook invocation, named after the corresponding
`NullStrongIntValidator::Validate*` member and carrying the arguments the
C++ wrapper passes to it. -/
inductive HookCall where
  | validateInit (arg : Nat)
  | validateNegate (v : Nat)
  | validateBitNot (v : Nat)
  | validateAdd (lhs rhs : Nat)
  | validateSubtract (lhs rhs : Nat)
  | validateMultiply (lhs rhs : Nat)
  | validateDivide (lhs rhs : Nat)
  | validateModulo (lhs rhs : Nat)
  | validateLeftShift (lhs rhs : Nat)
  | validateRightShift (lhs rhs : Nat)
  | validateBitAnd (lhs rhs : Nat)
  | validateBitOr (lhs rhs : Nat)
  | validateBitXor (lhs rhs : Nat)
deriving DecidableEq, Repr

/-- `static_cast<ValueType>` of a nonnegative quantity onto a `w`-bit
native type: reduce modulo `2 ^ w`. -/
def wrap (w n : Nat) : Nat := n % 2 ^ w

/-- `static_cast<ValueType>` of a possibly negative quantity (used for
native subtraction / negation, which wrap modulo `2 ^ w`). -/
def intWrap (w : Nat) (i : Int) : Nat := (i % ((2 ^ w : Nat) : Int)).toNat

/-- `StrongInt<TagType, NativeType, ValidatorType>`: exactly one native
field `value_`, here a `w`-bit machine integer held as a `Nat` (canonical
values are `< 2 ^ w`). -/
structure StrongInt (w : Nat) where
  val : Nat
deriving DecidableEq, Repr

namespace StrongInt

/-- `constexpr StrongInt() : value_((ValidateInit<ValueType>(NativeType()), NativeType()))`:
invokes the init hook on the native zero, then stores the native zero. -/
def defaultCtor (w : Nat) : StrongInt w × List HookCall :=
  (⟨0⟩, [.validateInit 0])

/-- `explicit constexpr StrongInt(T init_value)`: invokes the init hook on
the argument, then stores `static_cast<ValueType>(init_value)`. -/
def ofNumeric (w : Nat) (init_value : Nat) : StrongInt w × List HookCall :=
  (⟨wrap w init_value⟩, [.validateInit init_value])

/-- `constexpr ValueType value() const { return value_; }` -/
def value {w : Nat} (x : StrongInt w) : Nat := x.val

/-- `StrongInt &operator++()` (`++x`): `ValidateAdd(value_, 1); ++value_;
return *this;` — the first component is both the mutated object and the
returned reference. -/
def preInc {w : Nat} (x : StrongInt w) : StrongInt w × List HookCall :=
  (⟨wrap w (x.val + 1)⟩, [.validateAdd x.val 1])

/-- `const StrongInt operator++(int)` (`x++`): same hook and mutation, but
returns `temp`, the snapshot copied before `++value_`.  Components: the
mutated object, the returned snapshot, the hook trace. -/
def postInc {w : Nat} (x : StrongInt w) :
    StrongInt w × StrongInt w × List HookCall :=
  (⟨wrap w (x.val + 1)⟩, x, [.validateAdd x.val 1])

/-- `StrongInt &operator--()` (`--x`): `ValidateSubtract(value_, 1);
--value_; return *this;` with native wraparound decrement. -/
def preDec {w : Nat} (x : StrongInt w) : StrongInt w × List HookCall :=
  (⟨intWrap w ((x.val : Int) - 1)⟩, [.validateSubtract x.val 1])

/-- `const StrongInt operator--(int)` (`x--`): same hook and mutation,
returning the pre-mutation snapshot. -/
def postDec {w : Nat} (x : StrongInt w) :
    StrongInt w × StrongInt w × List HookCall :=
  (⟨intWrap w ((x.val : Int) - 1)⟩, x, [.validateSubtract x.val 1])

end StrongInt

/-! ## Free binary operators

`STRONG_INT_VS_STRONG_INT_BINARY_OP(op, validator)` expands to
`return Validator(lhs.value(), rhs.value()),
 StrongInt(static_cast<ValueType>(lhs.value() op rhs.value()));`
— the validator hook fires first, then the explicit numeric constructor
(which itself invokes the init hook) builds the result. -/

/-- `operator+` between two `StrongInt` of one instantiation. -/
def opAdd {w : Nat} (lhs rhs : StrongInt w) : StrongInt w × List HookCall :=
  (⟨wrap w (lhs.val + rhs.val)⟩,
   [.validateAdd lhs.val rhs.val, .validateInit (wrap w (lhs.val + rhs.val))])

/-- `operator-` between two `StrongInt` of one instantiation (native
wraparound subtraction). -/
def opSub {w : Nat} (lhs rhs : StrongInt w) : StrongInt w × List HookCall :=
  (⟨intWrap w ((lhs.val : Int) - rhs.val)⟩,
   [.validateSubtract lhs.val rhs.val,
    .validateInit (intWrap w ((lhs.val : Int) - rhs.val))])

/-- `operator&` between two `StrongInt` of one instantiation. -/
def opAnd {w : Nat} (lhs rhs : StrongInt w) : StrongInt w × List HookCall :=
  (⟨wrap w (lhs.val &&& rhs.val)⟩,
   [.validateBitAnd lhs.val rhs.val, .validateInit (wrap w (lhs.val &&& rhs.val))])

/-- `operator|` between two `StrongInt` of one instantiation. -/
def opOr {w : Nat} (lhs rhs : StrongInt w) : StrongInt w × List HookCall :=
  (⟨wrap w (lhs.val ||| rhs.val)⟩,
   [.validateBitOr lhs.val rhs.val, .validateInit (wrap w (lhs.val ||| rhs.val))])

/-- `operator^` between two `StrongInt` of one instantiation. -/
def opXor {w : Nat} (lhs rhs : StrongInt w) : StrongInt w × List HookCall :=
  (⟨wrap w (lhs.val ^^^ rhs.val)⟩,
   [.validateBitXor lhs.val rhs.val, .validateInit (wrap w (lhs.val ^^^ rhs.val))])

/-! `STRONG_INT_VS_NUMERIC_BINARY_OP(op, validator)`:
`operator op(StrongInt lhs, NumType rhs)` returning
`StrongInt(static_cast<ValueType>(lhs.value() op rhs))`, hook on
`(lhs.value(), rhs)` first.  Instantiated for `*` and `/` only.

`NUMERIC_VS_STRONG_INT_BINARY_OP(op, validator)`:
`operator op(NumType lhs, StrongInt rhs)` returning
`StrongInt(static_cast<ValueType>(rhs.value() op lhs))`, hook on
`(rhs.value(), lhs)` first.  Instantiated for `*`, `%`, `<<`, `>>` —
note the operand swap: the StrongInt's value is the LEFT operand of the
native computation even though it is the RIGHT operand of the call. -/

/-- `operator*(StrongInt lhs, NumType rhs)` = `StrongInt(lhs.value() * rhs)`. -/
def opMulNum {w : Nat} (lhs : StrongInt w) (rhs : Nat) :
    StrongInt w × List HookCall :=
  (⟨wrap w (lhs.val * rhs)⟩,
   [.validateMultiply lhs.val rhs, .validateInit (wrap w (lhs.val * rhs))])

/-- `operator*(NumType lhs, StrongInt rhs)` = `StrongInt(rhs.value() * lhs)`. -/
def opNumMul {w : Nat} (lhs : Nat) (rhs : StrongInt w) :
    StrongInt w × List HookCall :=
  (⟨wrap w (rhs.val * lhs)⟩,
   [.validateMultiply rhs.val lhs, .validateInit (wrap w (rhs.val * lhs))])

/-- `operator/(StrongInt lhs, NumType rhs)` = `StrongInt(lhs.value() / rhs)`. -/
def opDivNum {w : Nat} (lhs : StrongInt w) (rhs : Nat) :
    StrongInt w × List HookCall :=
  (⟨wrap w (lhs.val / rhs)⟩,
   [.validateDivide lhs.val rhs, .validateInit (wrap w (lhs.val / rhs))])

/-- `operator%(NumType lhs, StrongInt rhs)` = `StrongInt(rhs.value() % lhs)`:
the only modulo overload the header provides takes the numeric operand on
the left and computes with the operands swapped. -/
def opNumMod {w : Nat} (lhs : Nat) (rhs : StrongInt w) :
    StrongInt w × List HookCall :=
  (⟨wrap w (rhs.val % lhs)⟩,
   [.validateModulo rhs.val lhs, .validateInit (wrap w (rhs.val % lhs))])

/-- `operator<<(NumType lhs, StrongInt rhs)` = `StrongInt(rhs.value() << lhs)`:
the only left-shift overload, numeric operand on the left, operands
swapped in the computation. -/
def opNumShl {w : Nat} (lhs : Nat) (rhs : StrongInt w) :
    StrongInt w × List HookCall :=
  (⟨wrap w (rhs.val <<< lhs)⟩,
   [.validateLeftShift rhs.val lhs, .validateInit (wrap w (rhs.val <<< lhs))])

/-- `operator>>(NumType lhs, StrongInt rhs)` = `StrongInt(rhs.value() >> lhs)`:
the only right-shift overload, numeric operand on the left, operands
swapped in the computation. -/
def opNumShr {w : Nat} (lhs : Nat) (rhs : StrongInt w) :
    StrongInt w × List HookCall :=
  (⟨wrap w (rhs.val >>> lhs)⟩,
   [.validateRightShift rhs.val lhs, .validateInit (wrap w (rhs.val >>> lhs))])

/-! ## Comparison operators

`STRONG_INT_COMPARISON_OP(op)` expands to
`return lhs.value() op rhs.value();` — a plain native comparison, no
validator call anywhere in its body, hence the empty hook trace. -/

/-- `operator==(StrongInt lhs, StrongInt rhs)` = `lhs.value() == rhs.value()`. -/
def opEq {w : Nat} (lhs rhs : StrongInt w) : Bool × List HookCall :=
  (lhs.val == rhs.val, [])

/-- `operator!=(StrongInt lhs, StrongInt rhs)` = `lhs.value() != rhs.value()`. -/
def opNe {w : Nat} (lhs rhs : StrongInt w) : Bool × List HookCall :=
  (lhs.val != rhs.val, [])

/-- `operator<(StrongInt lhs, StrongInt rhs)` = `lhs.value() < rhs.value()`. -/
def opLt {w : Nat} (lhs rhs : StrongInt w) : Bool × List HookCall :=
  (decide (lhs.val < rhs.val), [])

/-- `operator<=(StrongInt lhs, StrongInt rhs)` = `lhs.value() <= rhs.value()`. -/
def opLe {w : Nat} (lhs rhs : StrongInt w) : Bool × List HookCall :=
  (decide (lhs.val ≤ rhs.val), [])

/-- `operator>(StrongInt lhs, StrongInt rhs)` = `lhs.value() > rhs.value()`. -/
def opGt {w : Nat} (lhs rhs : StrongInt w) : Bool × List HookCall :=
  (decide (rhs.val < lhs.val), [])

/-- `operator>=(StrongInt lhs, StrongInt rhs)` = `lhs.value() >= rhs.value()`. -/
def opGe {w : Nat} (lhs rhs : StrongInt w) : Bool × List HookCall :=
  (decide (rhs.val ≤ lhs.val), [])

/-! ## `StrongIntRange`

`StrongIntRange<IntType>` holds a `begin_` and `end_` iterator, each
wrapping one `current_ : IntType`.  A for-range loop over it runs
`for (it = begin(); it != end(); ++it) use(*it);` — advancing with
`StrongIntRangeIterator::operator++` (which applies `++current_`, i.e.
`StrongInt::operator++`) and terminating via
`StrongIntRangeIterator::operator!=` (which applies `StrongInt`'s `!=`,
an inequality test, not a less-than test). -/

/-- `StrongIntRange<IntType>::StrongIntRangeIterator`: one `current_`. -/
structure StrongIntRangeIterator (w : Nat) where
  current : StrongInt w
deriving DecidableEq, Repr

/-- `StrongIntRangeIterator::operator!=`: compares the two `current_`
values with `StrongInt`'s `operator!=`. -/
def iterNe {w : Nat} (a b : StrongIntRangeIterator w) : Bool :=
  (opNe a.current b.current).1

/-- `StrongIntRangeIterator::operator*`: returns `current_`. -/
def iterDeref {w : Nat} (a : StrongIntRangeIterator w) : StrongInt w :=
  a.current

/-- `StrongIntRangeIterator::operator++`: `++current_`, i.e.
`StrongInt::operator++` on the held value. -/
def iterInc {w : Nat} (a : StrongIntRangeIterator w) : StrongIntRangeIterator w :=
  ⟨(a.current.preInc).1⟩

/-- `StrongIntRange<IntType>`: the pair of `begin_` / `end_` iterators. -/
structure StrongIntRange (w : Nat) where
  begin_ : StrongIntRangeIterator w
  end_ : StrongIntRangeIterator w
deriving DecidableEq, Repr

/-- `explicit StrongIntRange(IntType end) : begin_(IntType(0)), end_(end)`:
the one-argument constructor starts at `IntType(0)` (the explicit numeric
constructor applied to `0`). -/
def StrongIntRange.ofEnd (w : Nat) (e : StrongInt w) : StrongIntRange w :=
  ⟨⟨(StrongInt.ofNumeric w 0).1⟩, ⟨e⟩⟩

/-- `StrongIntRange(IntType begin, IntType end) : begin_(begin), end_(end)`. -/
def StrongIntRange.ofPair (w : Nat) (b e : StrongInt w) : StrongIntRange w :=
  ⟨⟨b⟩, ⟨e⟩⟩

/-- The values a for-range loop over a `StrongIntRange` visits, fuelled
(the C++ loop has no fuel; a fuel of `2 ^ w` is enough whenever the values
are canonical, which the termination theorems establish): while
`it != end_` holds (tested with `iterNe`), yield `*it` and advance with
`iterInc`. -/
def rangeLoop {w : Nat} (e : StrongIntRangeIterator w) :
    Nat → StrongIntRangeIterator w → List (StrongInt w)
  | 0, _ => []
  | fuel + 1, it =>
    if iterNe it e then iterDeref it :: rangeLoop e fuel (iterInc it) else []

/-- The list of values a for-range loop over `r` visits, with fuel `2 ^ w`. -/
def StrongIntRange.toList {w : Nat} (r : StrongIntRange w) : List (StrongInt w) :=
  rangeLoop r.end_ (2 ^ w) r.begin_

/-! ## Hashing

`StrongInt::Hasher::operator()` returns `static_cast<size_t>(x.value())`,
and `std::hash<StrongInt<...>>` simply inherits from `Hasher`.  `size_t`
is the host's 64-bit unsigned type. -/

/-- `StrongInt::Hasher::operator()(const StrongInt &x)` =
`static_cast<size_t>(x.value())`. -/
def hasherCall {w : Nat} (x : StrongInt w) : Nat := wrap 64 x.val

/-- `std::hash<StrongInt<Tag, Value, Validator>>` derives from
`StrongInt::Hasher`, so its call operator is `Hasher`'s. -/
def stdHashCall {w : Nat} (x : StrongInt w) : Nat := hasherCall x

/-! A minimal model of a standard hash-based associative container, enough
to state that a `StrongInt` key inserted with one instance can be looked
up with another instance of equal value: `nb` buckets, a key hashes (via
`std::hash`) to bucket `hash % nb`, and lookup scans the bucket with the
key type's `==`. -/

/-- Bucket index a key hashes to in an `nb`-bucket table. -/
def bucketIdx {w : Nat} (nb : Nat) (k : StrongInt w) : Nat :=
  stdHashCall k % nb

/-- An empty hash table with `nb` buckets. -/
def hashTableEmpty (w nb : Nat) : List (List (StrongInt w × Nat)) :=
  List.replicate nb []

/-- Insert `(k, v)` into the bucket `k` hashes to. -/
def hashTableInsert {w : Nat} (nb : Nat) (t : List (List (StrongInt w × Nat)))
    (k : StrongInt w) (v : Nat) : List (List (StrongInt w × Nat)) :=
  t.set (bucketIdx nb k) ((k, v) :: t.getD (bucketIdx nb k) [])

/-- Look `k` up: scan the bucket `k` hashes to with `StrongInt`'s `==`. -/
def hashTableLookup {w : Nat} (nb : Nat) (t : List (List (StrongInt w × Nat)))
    (k : StrongInt w) : Option Nat :=
  ((t.getD (bucketIdx nb k) []).find? (fun p => (opEq p.1 k).1)).map Prod.snd

/-! ## Stream output

`operator<<(std::ostream&, StrongInt)` inserts `arg.value()`; the
specializations for `int8_t` and `uint8_t` natives insert
`static_cast<int>(arg.value())` / `static_cast<unsigned int>(arg.value())`
instead, so the stream formats a number, not a character glyph.  We model
`ostream`'s decimal formatting of an integer insertion explicitly (digit
extraction by repeated division), and a character insertion as emitting
the glyph itself. -/

/-- Decimal digit characters of `n`, most significant first, extracted by
repeated division; the fuel argument only bounds the digit count (`n + 1`
is always enough) so the recursion is structural. -/
def natDecCharsAux : Nat → Nat → List Char → List Char
  | 0, _, acc => acc
  | fuel + 1, n, acc =>
    if n < 10 then Char.ofNat (48 + n) :: acc
    else natDecCharsAux fuel (n / 10) (Char.ofNat (48 + n % 10) :: acc)

/-- Decimal digit characters of `n`, most significant first. -/
def natDecChars (n : Nat) : List Char := natDecCharsAux (n + 1) n []

/-- `ostream` insertion of an `int`: its decimal representation. -/
def ostreamPutInt (i : Int) : String :=
  if i < 0 then String.mk ('-' :: natDecChars i.natAbs)
  else String.mk (natDecChars i.toNat)

/-- `ostream` insertion of a `char`: the character glyph itself. -/
def ostreamPutChar (c : Char) : String := String.mk [c]

/-- Reinterpret the stored 8-bit pattern as the signed `int8_t` value
(what `arg.value()` is for an `int8_t` native). -/
def int8ToInt (v : Nat) : Int := if v < 128 then (v : Int) else (v : Int) - 256

/-- The `int8_t` specialization of `operator<<`:
`os << static_cast<int>(arg.value())`. -/
def renderStrongInt8 (x : StrongInt 8) : String :=
  ostreamPutInt (int8ToInt x.val)

/-- The `uint8_t` specialization of `operator<<`:
`os << static_cast<unsigned int>(arg.value())`. -/
def renderStrongUInt8 (x : StrongInt 8) : String :=
  ostreamPutInt (x.val : Int)

/-- What inserting the raw 8-bit native directly would print (a `char` /
`unsigned char` insertion selects the character overload): the glyph of
the stored code unit.  The specializations exist to avoid exactly this. -/
def renderStrongInt8AsGlyph (x : StrongInt 8) : String :=
  ostreamPutChar (Char.ofNat x.val)

/-! ## Helper lemmas for range iteration -/

/-- Number of wrapped increments needed to drive a `w`-bit counter from
`b` to its first coincidence with `e`. -/
def dist (w b e : Nat) : Nat := (e + 2 ^ w - b) % 2 ^ w

lemma two_pow_pos (w : Nat) : 0 < 2 ^ w := Nat.pos_pow_of_pos w (by omega)

lemma dist_lt (w b e : Nat) : dist w b e < 2 ^ w :=
  Nat.mod_lt _ (two_pow_pos w)

lemma dist_eq_of_le {w b e : Nat} (hbe : b ≤ e) (he : e < 2 ^ w) :
    dist w b e = e - b := by
  unfold dist
  have h1 : e + 2 ^ w - b = (e - b) + 2 ^ w := by omega
  rw [h1, Nat.add_mod_right]
  exact Nat.mod_eq_of_lt (by omega)

lemma dist_eq_of_gt {w b e : Nat} (heb : e < b) (hb : b < 2 ^ w) :
    dist w b e = e + 2 ^ w - b := by
  unfold dist
  exact Nat.mod_eq_of_lt (by omega)

lemma dist_eq_zero_iff {w b e : Nat} (hb : b < 2 ^ w) (he : e < 2 ^ w) :
    dist w b e = 0 ↔ b = e := by
  rcases Nat.lt_or_ge e b with h | h
  · rw [dist_eq_of_gt h hb]; omega
  · rw [dist_eq_of_le h he]; omega

lemma dist_succ {w b e : Nat} (hb : b < 2 ^ w) (he : e < 2 ^ w) (hne : b ≠ e) :
    dist w ((b + 1) % 2 ^ w) e = dist w b e - 1 := by
  rcases Nat.lt_or_ge (b + 1) (2 ^ w) with h | h
  · rw [Nat.mod_eq_of_lt h]
    rcases Nat.lt_or_ge b e with h2 | h2
    · rw [dist_eq_of_le h2 he, dist_eq_of_le (by omega) he]
      omega
    · have h3 : e < b := by omega
      rw [dist_eq_of_gt h3 hb]
      rcases Nat.lt_or_ge e (b + 1) with h4 | h4
      · rw [dist_eq_of_gt h4 h]; omega
      · omega
  · have hb1 : b + 1 = 2 ^ w := by omega
    have h0 : (b + 1) % 2 ^ w = 0 := by rw [hb1, Nat.mod_self]
    rw [h0]
    have h3 : e < b := by omega
    rw [dist_eq_of_gt h3 hb, dist_eq_of_le (Nat.zero_le e) he]
    omega

/-- Characterization of the for-range loop: starting at a canonical `b`,
with `dist w b e` strictly below the fuel, the loop yields exactly the
wrapped counter values `b, b+1, …` for `dist w b e` steps. -/
lemma rangeLoop_spec {w : Nat} {e : Nat} (he : e < 2 ^ w) :
    ∀ d b fuel, b < 2 ^ w → dist w b e = d → d < fuel →
    rangeLoop (⟨⟨e⟩⟩ : StrongIntRangeIterator w) fuel ⟨⟨b⟩⟩
      = (List.range d).map (fun j => (⟨(b + j) % 2 ^ w⟩ : StrongInt w)) := by
  intro d
  induction d with
  | zero =>
    intro b fuel hb hd hf
    have hbe : b = e := (dist_eq_zero_iff hb he).1 hd
    obtain ⟨f, rfl⟩ : ∃ f, fuel = f + 1 := ⟨fuel - 1, by omega⟩
    simp [rangeLoop, iterNe, opNe, hbe]
  | succ k ih =>
    intro b fuel hb hd hf
    have hne : b ≠ e := by
      intro hbe
      rw [(dist_eq_zero_iff hb he).2 hbe] at hd
      omega
    obtain ⟨f, rfl⟩ : ∃ f, fuel = f + 1 := ⟨fuel - 1, by omega⟩
    have hb' : (b + 1) % 2 ^ w < 2 ^ w := Nat.mod_lt _ (two_pow_pos w)
    have hd' : dist w ((b + 1) % 2 ^ w) e = k := by
      rw [dist_succ hb he hne, hd]
      omega
    have htail := ih ((b + 1) % 2 ^ w) f hb' hd' (by omega)
    have hstep :
        rangeLoop (⟨⟨e⟩⟩ : StrongIntRangeIterator w) (f + 1) ⟨⟨b⟩⟩
          = (⟨b⟩ : StrongInt w) ::
              rangeLoop (⟨⟨e⟩⟩ : StrongIntRangeIterator w) f ⟨⟨(b + 1) % 2 ^ w⟩⟩ := by
      simp [rangeLoop, iterNe, opNe, hne, iterDeref, iterInc, StrongInt.preInc, wrap]
    rw [hstep, htail, List.range_succ_eq_map, List.map_cons, List.map_map]
    have hhead : ((⟨(b + 0) % 2 ^ w⟩ : StrongInt w)) = ⟨b⟩ := by
      simp [Nat.mod_eq_of_lt hb]
    have hfun :
        ((fun j => (⟨(b + j) % 2 ^ w⟩ : StrongInt w)) ∘ Nat.succ)
          = fun j => (⟨((b + 1) % 2 ^ w + j) % 2 ^ w⟩ : StrongInt w) := by
      funext j
      simp only [Function.comp]
      congr 1
      rw [Nat.mod_add_mod]
      congr 1
      omega
    rw [hhead, hfun]

/-! ## Claim theorems -/

/-- Claim C6: a default-constructed `StrongInt` of any instantiation holds
the native zero, and the construction invokes the validator's init hook
with that zero value. -/
theorem default_ctor_zero_with_init_hook (w : Nat) :
    (StrongInt.defaultCtor w).1.val = 0
      ∧ (StrongInt.defaultCtor w).2 = [HookCall.validateInit 0] :=
  ⟨rfl, rfl⟩

/-- Claim C5: each of the six comparison operators between two `StrongInt`
of the identical instantiation returns exactly the corresponding native
comparison of the stored values, and its hook trace is empty — no
validator hook is ever invoked by a comparison. -/
theorem comparison_ops_native_no_hooks (w : Nat) (x y : StrongInt w) :
    ((opEq x y).1 = true ↔ x.val = y.val) ∧ (opEq x y).2 = []
      ∧ ((opNe x y).1 = true ↔ x.val ≠ y.val) ∧ (opNe x y).2 = []
      ∧ ((opLt x y).1 = true ↔ x.val < y.val) ∧ (opLt x y).2 = []
      ∧ ((opLe x y).1 = true ↔ x.val ≤ y.val) ∧ (opLe x y).2 = []
      ∧ ((opGt x y).1 = true ↔ y.val < x.val) ∧ (opGt x y).2 = []
      ∧ ((opGe x y).1 = true ↔ y.val ≤ x.val) ∧ (opGe x y).2 = [] := by
  refine ⟨?_, rfl, ?_, rfl, ?_, rfl, ?_, rfl, ?_, rfl, ?_, rfl⟩ <;>
    simp [opEq, opNe, opLt, opLe, opGt, opGe]

/-- Claim C8: the `int8_t` / `uint8_t` specializations of `operator<<`
render the numeric decimal value of the stored 8-bit quantity, never the
character glyph: an 8-bit strong integer holding 65 prints as `"65"`,
not as `"A"` (and a signed byte holding the pattern 200 prints `"-56"`,
an unsigned one `"200"`). -/
theorem int8_stream_renders_number_not_glyph :
    renderStrongInt8 ⟨65⟩ = "65"
      ∧ renderStrongUInt8 ⟨65⟩ = "65"
      ∧ renderStrongInt8AsGlyph ⟨65⟩ = "A"
      ∧ renderStrongInt8 ⟨65⟩ ≠ renderStrongInt8AsGlyph ⟨65⟩
      ∧ renderStrongInt8 ⟨200⟩ = "-56"
      ∧ renderStrongUInt8 ⟨200⟩ = "200" := by
  refine ⟨?_, ?_, ?_, ?_, ?_, ?_⟩ <;> decide

/-- Claim C9: for `%`, `<<`, `>>` the overload the header actually
provides takes the numeric operand on the LEFT and the `StrongInt` on the
right (see the types of `opNumMod`, `opNumShl`, `opNumShr`), and computes
with the operands swapped relative to the call syntax: `n % x` evaluates
to `StrongInt(x.value() % n)`, `n << x` to `StrongInt(x.value() << n)`
(truncated by the constructor's cast), `n >> x` to
`StrongInt(x.value() >> n)`; the hook receives `(x.value(), n)`. -/
theorem numeric_mod_shift_swapped_computation (w n : Nat) (x : StrongInt w)
    (hx : x.val < 2 ^ w) :
    (opNumMod n x).1.val = x.val % n
      ∧ (opNumShl n x).1.val = wrap w (x.val <<< n)
      ∧ (opNumShr n x).1.val = x.val >>> n
      ∧ (opNumMod n x).2.head? = some (HookCall.validateModulo x.val n)
      ∧ (opNumShl n x).2.head? = some (HookCall.validateLeftShift x.val n)
      ∧ (opNumShr n x).2.head? = some (HookCall.validateRightShift x.val n) := by
  have hmod : x.val % n < 2 ^ w := Nat.lt_of_le_of_lt (Nat.mod_le _ _) hx
  have hshr : x.val >>> n < 2 ^ w := by
    rw [Nat.shiftRight_eq_div_pow]
    exact Nat.lt_of_le_of_lt (Nat.div_le_self _ _) hx
  exact ⟨by simp [opNumMod, wrap, Nat.mod_eq_of_lt hmod], rfl,
    by simp [opNumShr, wrap, Nat.mod_eq_of_lt hshr], rfl, rfl, rfl⟩

/-- Witness for `numeric_mod_shift_swapped_computation` at `w = 8`,
`n = 3`, `x` holding `7`. -/
theorem numeric_mod_shift_swapped_computation_witness :
    (7 : Nat) < 2 ^ 8
      ∧ (opNumMod 3 (⟨7⟩ : StrongInt 8)).1.val = 1
      ∧ (opNumShl 3 (⟨7⟩ : StrongInt 8)).1.val = 56
      ∧ (opNumShr 3 (⟨7⟩ : StrongInt 8)).1.val = 0 := by
  have h := numeric_mod_shift_swapped_computation 8 3 (⟨7⟩ : StrongInt 8) (by decide)
  refine ⟨by decide, ?_, ?_, ?_⟩
  · rw [h.1]; decide
  · rw [h.2.1]; decide
  · rw [h.2.2.1]; decide

/-- Claim C1 (the code as shipped): only `*` and `/` take the `StrongInt`
on the left of a numeric operand; for `%`, `<<`, `>>` the header instead
instantiates the numeric-on-the-left macro, whose body computes
`rhs.value() op lhs` — so the expression `3 % x` with `x` holding `7`
yields value `7 % 3 = 1`, not the native `3 % 7 = 3`, and `3 << x` with
`x` holding `1` yields `1 << 3 = 8`, not `3 << 1 = 6`; `*` (both orders)
and `/` behave as documented. -/
theorem mod_shift_call_syntax_swapped :
    (opNumMod 3 (⟨7⟩ : StrongInt 32)).1.val = 1
      ∧ (3 : Nat) % 7 = 3
      ∧ (opNumShl 3 (⟨1⟩ : StrongInt 32)).1.val = 8
      ∧ (3 : Nat) <<< 1 = 6
      ∧ (opNumShr 3 (⟨16⟩ : StrongInt 32)).1.val = 2
      ∧ (3 : Nat) >>> 16 = 0
      ∧ (opMulNum (⟨7⟩ : StrongInt 32) 3).1.val = 21
      ∧ (opNumMul 3 (⟨7⟩ : StrongInt 32)).1.val = 21
      ∧ (opDivNum (⟨7⟩ : StrongInt 32) 3).1.val = 2 := by
  refine ⟨?_, ?_, ?_, ?_, ?_, ?_, ?_, ?_, ?_⟩ <;> decide

/-- Claim C3: for all native values `a`, `b` of a default-validated
strong type, `(StrongInt(a) + StrongInt(b)).value()` equals `a + b` under
native `w`-bit wraparound semantics, and likewise for `-`, `&`, `|`, `^`
between two `StrongInt` of one instantiation; each operation's first hook
invocation is the matching validator hook on the two native operands. -/
theorem strong_vs_strong_ops_wraparound (w a b : Nat)
    (ha : a < 2 ^ w) (hb : b < 2 ^ w) :
    (opAdd (StrongInt.ofNumeric w a).1 (StrongInt.ofNumeric w b).1).1.val
        = (a + b) % 2 ^ w
      ∧ (opSub (StrongInt.ofNumeric w a).1 (StrongInt.ofNumeric w b).1).1.val
        = intWrap w ((a : Int) - b)
      ∧ (opAnd (StrongInt.ofNumeric w a).1 (StrongInt.ofNumeric w b).1).1.val
        = a &&& b
      ∧ (opOr (StrongInt.ofNumeric w a).1 (StrongInt.ofNumeric w b).1).1.val
        = a ||| b
      ∧ (opXor (StrongInt.ofNumeric w a).1 (StrongInt.ofNumeric w b).1).1.val
        = a ^^^ b
      ∧ (opAdd (StrongInt.ofNumeric w a).1 (StrongInt.ofNumeric w b).1).2.head?
        = some (HookCall.validateAdd a b)
      ∧ (opSub (StrongInt.ofNumeric w a).1 (StrongInt.ofNumeric w b).1).2.head?
        = some (HookCall.validateSubtract a b)
      ∧ (opAnd (StrongInt.ofNumeric w a).1 (StrongInt.ofNumeric w b).1).2.head?
        = some (HookCall.validateBitAnd a b)
      ∧ (opOr (StrongInt.ofNumeric w a).1 (StrongInt.ofNumeric w b).1).2.head?
        = some (HookCall.validateBitOr a b)
      ∧ (opXor (StrongInt.ofNumeric w a).1 (StrongInt.ofNumeric w b).1).2.head?
        = some (HookCall.validateBitXor a b) := by
  have hA : (StrongInt.ofNumeric w a).1.val = a := by
    simp [StrongInt.ofNumeric, wrap, Nat.mod_eq_of_lt ha]
  have hB : (StrongInt.ofNumeric w b).1.val = b := by
    simp [StrongInt.ofNumeric, wrap, Nat.mod_eq_of_lt hb]
  have hand : a &&& b < 2 ^ w := Nat.and_lt_two_pow a hb
  have hor : a ||| b < 2 ^ w := Nat.or_lt_two_pow ha hb
  have hxor : a ^^^ b < 2 ^ w := Nat.xor_lt_two_pow ha hb
  refine ⟨?_, ?_, ?_, ?_, ?_, ?_, ?_, ?_, ?_, ?_⟩ <;>
    simp [opAdd, opSub, opAnd, opOr, opXor, hA, hB, wrap,
      Nat.mod_eq_of_lt hand, Nat.mod_eq_of_lt hor, Nat.mod_eq_of_lt hxor]

/-- Witness for `strong_vs_strong_ops_wraparound` at `w = 8`, `a = 200`,
`b = 100`: the sum wraps to `44`, the difference wraps to `100`, and the
bitwise results are `64`, `236`, `172`. -/
theorem strong_vs_strong_ops_wraparound_witness :
    ((200 : Nat) < 2 ^ 8 ∧ (100 : Nat) < 2 ^ 8)
      ∧ (opAdd (StrongInt.ofNumeric 8 200).1 (StrongInt.ofNumeric 8 100).1).1.val = 44
      ∧ (opSub (StrongInt.ofNumeric 8 200).1 (StrongInt.ofNumeric 8 100).1).1.val = 100
      ∧ (opAnd (StrongInt.ofNumeric 8 200).1 (StrongInt.ofNumeric 8 100).1).1.val = 64
      ∧ (opOr (StrongInt.ofNumeric 8 200).1 (StrongInt.ofNumeric 8 100).1).1.val = 236
      ∧ (opXor (StrongInt.ofNumeric 8 200).1 (StrongInt.ofNumeric 8 100).1).1.val = 172 := by
  have h := strong_vs_strong_ops_wraparound 8 200 100 (by decide) (by decide)
  refine ⟨⟨by decide, by decide⟩, ?_, ?_, ?_, ?_, ?_⟩
  · rw [h.1]; decide
  · rw [h.2.1]; decide
  · rw [h.2.2.1]; decide
  · rw [h.2.2.2.1]; decide
  · rw [h.2.2.2.2.1]; decide

/-- Claim C4: on a `StrongInt` holding `v`, `++x` invokes the add hook
with `(v, 1)`, mutates to the native successor of `v`, and the returned
reference holds that successor; `x++` performs the same hook and
mutation but returns the pre-mutation snapshot holding `v`; `--x` and
`x--` behave symmetrically with the subtract hook and the native
predecessor; when `v + 1` does not overflow the result is exactly
`v + 1`, and when `0 < v` the decremented result is exactly `v - 1`. -/
theorem increment_decrement_semantics (w v : Nat) (hv : v < 2 ^ w) :
    ((⟨v⟩ : StrongInt w).preInc).1.val = (v + 1) % 2 ^ w
      ∧ ((⟨v⟩ : StrongInt w).preInc).2 = [HookCall.validateAdd v 1]
      ∧ ((⟨v⟩ : StrongInt w).postInc).1 = ((⟨v⟩ : StrongInt w).preInc).1
      ∧ ((⟨v⟩ : StrongInt w).postInc).2.1.val = v
      ∧ ((⟨v⟩ : StrongInt w).postInc).2.2 = [HookCall.validateAdd v 1]
      ∧ (v + 1 < 2 ^ w → ((⟨v⟩ : StrongInt w).preInc).1.val = v + 1)
      ∧ ((⟨v⟩ : StrongInt w).preDec).2 = [HookCall.validateSubtract v 1]
      ∧ ((⟨v⟩ : StrongInt w).postDec).1 = ((⟨v⟩ : StrongInt w).preDec).1
      ∧ ((⟨v⟩ : StrongInt w).postDec).2.1.val = v
      ∧ ((⟨v⟩ : StrongInt w).postDec).2.2 = [HookCall.validateSubtract v 1]
      ∧ (0 < v → ((⟨v⟩ : StrongInt w).preDec).1.val = v - 1) := by
  refine ⟨rfl, rfl, rfl, rfl, rfl, fun h => ?_, rfl, rfl, rfl, rfl, fun h => ?_⟩
  · simp [StrongInt.preInc, wrap, Nat.mod_eq_of_lt h]
  · have hcast : ((v : Int) - 1) = ((v - 1 : Nat) : Int) := by omega
    have hlt : ((v - 1 : Nat) : Int) < ((2 ^ w : Nat) : Int) := by
      exact_mod_cast Nat.lt_of_le_of_lt (Nat.sub_le v 1) hv
    simp only [StrongInt.preDec, intWrap, hcast]
    rw [Int.emod_eq_of_lt (by positivity) hlt]
    simp

/-- Witness for `increment_decrement_semantics` at `w = 8`, `v = 5`:
`++x` and `x++` leave the object at `6`, `x++` returns `5`; `--x` and
`x--` leave it at `4`, `x--` returns `5`. -/
theorem increment_decrement_semantics_witness :
    ((5 : Nat) < 2 ^ 8 ∧ 5 + 1 < 2 ^ 8 ∧ (0 : Nat) < 5)
      ∧ ((⟨5⟩ : StrongInt 8).preInc).1.val = 6
      ∧ ((⟨5⟩ : StrongInt 8).postInc).2.1.val = 5
      ∧ ((⟨5⟩ : StrongInt 8).preDec).1.val = 4
      ∧ ((⟨5⟩ : StrongInt 8).postDec).2.1.val = 5 := by
  have h := increment_decrement_semantics 8 5 (by decide)
  refine ⟨⟨by decide, by decide, by decide⟩, ?_, ?_, ?_, ?_⟩
  · rw [h.2.2.2.2.2.1 (by decide)]
  · rw [h.2.2.2.1]
  · rw [h.2.2.2.2.2.2.2.2.2.2 (by decide)]
  · rw [h.2.2.2.2.2.2.2.2.1]

/-- Claim C2: for `b ≤ e` (canonical `w`-bit values), iterating
`StrongIntRange(b, e)` yields exactly `b, b+1, …, e-1` in increasing
order (in particular `StrongIntRange(e, e)` yields nothing), the
single-argument constructor coincides with `StrongIntRange(0, e)`, and
the iterator's termination test is the stored end value's inequality
comparison, not a less-than comparison. -/
theorem range_iterates_half_open_ascending (w b e : Nat)
    (hbe : b ≤ e) (he : e < 2 ^ w) :
    (StrongIntRange.ofPair w ⟨b⟩ ⟨e⟩).toList
        = (List.range (e - b)).map (fun j => (⟨b + j⟩ : StrongInt w))
      ∧ StrongIntRange.ofEnd w ⟨e⟩ = StrongIntRange.ofPair w ⟨0⟩ ⟨e⟩
      ∧ (∀ p q : StrongIntRangeIterator w,
          iterNe p q = (p.current.val != q.current.val)) := by
  refine ⟨?_, ?_, fun p q => rfl⟩
  · have hb : b < 2 ^ w := Nat.lt_of_le_of_lt hbe he
    have hd : dist w b e = e - b := dist_eq_of_le hbe he
    have hfuel : e - b < 2 ^ w := by
      have := dist_lt w b e
      omega
    unfold StrongIntRange.toList StrongIntRange.ofPair
    rw [rangeLoop_spec he (e - b) b (2 ^ w) hb hd hfuel]
    apply List.map_congr_left
    intro j hj
    rw [List.mem_range] at hj
    congr 1
    exact Nat.mod_eq_of_lt (by omega)
  · simp [StrongIntRange.ofEnd, StrongIntRange.ofPair, StrongInt.ofNumeric, wrap]

/-- Witness for `range_iterates_half_open_ascending` at `w = 3`:
`Range(0, 5)` visits exactly `[0, 1, 2, 3, 4]` and `Range(3, 3)` visits
nothing. -/
theorem range_iterates_half_open_ascending_witness :
    ((0 : Nat) ≤ 5 ∧ (5 : Nat) < 2 ^ 3 ∧ (3 : Nat) ≤ 3 ∧ (3 : Nat) < 2 ^ 3)
      ∧ (StrongIntRange.ofPair 3 ⟨0⟩ ⟨5⟩).toList = [⟨0⟩, ⟨1⟩, ⟨2⟩, ⟨3⟩, ⟨4⟩]
      ∧ (StrongIntRange.ofPair 3 ⟨3⟩ ⟨3⟩).toList = []
      ∧ StrongIntRange.ofEnd 3 ⟨5⟩ = StrongIntRange.ofPair 3 ⟨0⟩ ⟨5⟩ := by
  refine ⟨⟨by decide, by decide, by decide, by decide⟩, ?_, ?_, ?_⟩
  · rw [(range_iterates_half_open_ascending 3 0 5 (by decide) (by decide)).1]
    decide
  · rw [(range_iterates_half_open_ascending 3 3 3 (by decide) (by decide)).1]
    decide
  · exact (range_iterates_half_open_ascending 3 0 5 (by decide) (by decide)).2.1

/-- Claim C10: under `w`-bit wraparound increment, iterating
`StrongIntRange(b, e)` terminates for every canonical pair `b`, `e`,
including `b > e`: the loop yields exactly `dist w b e` wrapped counter
values, `dist w b e` equals `(e - b) mod 2 ^ w` computed in the
integers, and after that many increments the counter lands exactly on
`e`. -/
theorem range_wraparound_termination (w b e : Nat)
    (hb : b < 2 ^ w) (he : e < 2 ^ w) :
    (StrongIntRange.ofPair w ⟨b⟩ ⟨e⟩).toList
        = (List.range (dist w b e)).map (fun j => (⟨(b + j) % 2 ^ w⟩ : StrongInt w))
      ∧ (StrongIntRange.ofPair w ⟨b⟩ ⟨e⟩).toList.length = dist w b e
      ∧ (b + dist w b e) % 2 ^ w = e
      ∧ ((dist w b e : Int) = ((e : Int) - (b : Int)) % ((2 ^ w : Nat) : Int)) := by
  have hlist : (StrongIntRange.ofPair w ⟨b⟩ ⟨e⟩).toList
      = (List.range (dist w b e)).map (fun j => (⟨(b + j) % 2 ^ w⟩ : StrongInt w)) := by
    unfold StrongIntRange.toList StrongIntRange.ofPair
    exact rangeLoop_spec he (dist w b e) b (2 ^ w) hb rfl (dist_lt w b e)
  refine ⟨hlist, by rw [hlist]; simp, ?_, ?_⟩
  · rcases Nat.lt_or_ge e b with h | h
    · rw [dist_eq_of_gt h hb]
      have h1 : b + (e + 2 ^ w - b) = e + 2 ^ w := by omega
      rw [h1, Nat.add_mod_right]
      exact Nat.mod_eq_of_lt he
    · rw [dist_eq_of_le h he]
      have h1 : b + (e - b) = e := by omega
      rw [h1]
      exact Nat.mod_eq_of_lt he
  · rcases Nat.lt_or_ge e b with h | h
    · rw [dist_eq_of_gt h hb]
      have key : ((e : Int) - b) % ((2 ^ w : Nat) : Int)
          = ((e : Int) - b + 1 * ((2 ^ w : Nat) : Int)) % ((2 ^ w : Nat) : Int) := by
        rw [Int.add_mul_emod_self]
      rw [key, Int.emod_eq_of_lt (by omega) (by omega)]
      omega
    · rw [dist_eq_of_le h he, Int.emod_eq_of_lt (by omega) (by omega)]
      omega

/-- Witness for `range_wraparound_termination` at `w = 3`, `b = 6`,
`e = 2`: the loop wraps past the maximum and terminates after
`(2 - 6) mod 8 = 4` increments, visiting `[6, 7, 0, 1]`. -/
theorem range_wraparound_termination_witness :
    ((6 : Nat) < 2 ^ 3 ∧ (2 : Nat) < 2 ^ 3)
      ∧ (StrongIntRange.ofPair 3 ⟨6⟩ ⟨2⟩).toList = [⟨6⟩, ⟨7⟩, ⟨0⟩, ⟨1⟩]
      ∧ (StrongIntRange.ofPair 3 ⟨6⟩ ⟨2⟩).toList.length = 4
      ∧ dist 3 6 2 = 4
      ∧ ((2 : Int) - 6) % ((2 ^ 3 : Nat) : Int) = 4 := by
  have h := range_wraparound_termination 3 6 2 (by decide) (by decide)
  refine ⟨⟨by decide, by decide⟩, ?_, ?_, by decide, by decide⟩
  · rw [h.1]; decide
  · rw [h.2.1]; decide

/-- Claim C7: hashing is value-based and consistent with equality —
`StrongInt::Hasher` (and the inheriting `std::hash` specialization)
returns the cast of the stored value, so equal native values hash
equally, and a key inserted in a hash-bucketed container with one
instance is found when looked up with the other. -/
theorem hash_value_based_consistent (w nb : Nat) (x y : StrongInt w) (v : Nat)
    (hnb : 0 < nb) (hxy : x.val = y.val) :
    stdHashCall x = stdHashCall y
      ∧ hashTableLookup nb (hashTableInsert nb (hashTableEmpty w nb) x v) y
        = some v := by
  have hhash : stdHashCall x = stdHashCall y := by
    simp [stdHashCall, hasherCall, hxy]
  refine ⟨hhash, ?_⟩
  have hbucket : bucketIdx nb y = bucketIdx nb x := by
    simp [bucketIdx, hhash]
  have hidx : bucketIdx nb x < nb := Nat.mod_lt _ hnb
  unfold hashTableLookup hashTableInsert hashTableEmpty
  rw [hbucket]
  rw [List.getD_eq_getElem?_getD,
    List.getElem?_set_self (by simpa using hidx)]
  simp [List.find?, opEq, hxy]

/-- Witness for `hash_value_based_consistent` at `w = 8`, a 4-bucket
table: inserting key `65` with value `7` and looking up an equal-valued
key finds `7`. -/
theorem hash_value_based_consistent_witness :
    ((0 : Nat) < 4 ∧ (⟨65⟩ : StrongInt 8).val = (⟨65⟩ : StrongInt 8).val)
      ∧ stdHashCall (⟨65⟩ : StrongInt 8) = stdHashCall (⟨65⟩ : StrongInt 8)
      ∧ hashTableLookup 4 (hashTableInsert 4 (hashTableEmpty 8 4) ⟨65⟩ 7) ⟨65⟩
        = some 7 :=
  ⟨⟨by decide, rfl⟩,
    (hash_value_based_consistent 8 4 ⟨65⟩ ⟨65⟩ 7 (by decide) rfl).1,
    (hash_value_based_consistent 8 4 ⟨65⟩ ⟨65⟩ 7 (by decide) rfl).2⟩

end StrongIntSpec
